import Mathlib

/-!
Verification of the log-file metadata and seek engine of `mtools`
(`src/mtools/util/logfile.py`), as a shallow embedding.

The external line parser (`LogLine`, out of scope per the spec) is modelled
as an opaque parameter `dtf : Dtf` mapping a raw line (including its
terminating newline character) to an optional timestamp.  Timestamps are
modelled as a calendar pair (year, position-within-year) ordered
lexicographically, which is exactly what the rollover correction in
`_calculate_bounds` needs.  A file is a list of characters; the Python file
handle is the pair (content, position) carried inside `LogFileSt` together
with the memo fields of the `LogFile` object.  Operations that can raise an
IOError in Python (seeking on stdin, `next()` at end of stream) return
`Option`, with `none` as the exception.
-/

/-- Timestamp model: a calendar year and an abstract position within the
year, ordered lexicographically (this is all `logfile.py` uses: comparison
and `replace(year=year-1)`). -/
structure DT where
  year : Int
  sub : Nat
deriving DecidableEq

/-- Strict order on timestamps (lexicographic). -/
def DT.ltb (a b : DT) : Bool :=
  decide (a.year < b.year ∨ (a.year = b.year ∧ a.sub < b.sub))

/-- Reflexive order on timestamps (lexicographic). -/
def DT.leb (a b : DT) : Bool :=
  decide (a.year < b.year ∨ (a.year = b.year ∧ a.sub ≤ b.sub))

/-- The `datetime.replace(year=self.year-1)` call of `_calculate_bounds` line 158. -/
def DT.decYear (a : DT) : DT := ⟨a.year - 1, a.sub⟩

/-- Python 2 comparison `self._end < self._start` where either side may be
`None`: `None` compares below every datetime, and `None < None` is false. -/
def pyLtOpt : Option DT → Option DT → Bool
  | none, some _ => true
  | some a, some b => DT.ltb a b
  | _, none => false

/-- The external parser contract: one raw line to an optional timestamp. -/
abbrev Dtf := List Char → Option DT

/-- A parsed record returned by `_find_curr_line`: the raw line together
with its (necessarily present) timestamp. -/
abbrev LogRec := List Char × DT

/-- Split off the first line of a character stream, keeping the trailing
newline character with the line (Python `file.readline()` semantics). -/
def takeLine : List Char → List Char × List Char
  | [] => ([], [])
  | c :: rest =>
    if c = '\n' then ([c], rest)
    else
      let p := takeLine rest
      (c :: p.1, p.2)

/-- All line-break-delimited records of a stream, in order (Python
`for line in filehandle` / `readlines()`).  Fuel-indexed for structural
recursion; `cs.length` units of fuel always suffice because each line
consumes at least one character. -/
def linesOfF : Nat → List Char → List (List Char)
  | 0, _ => []
  | _, [] => []
  | Nat.succ k, c :: rest =>
    let p := takeLine (c :: rest)
    p.1 :: linesOfF k p.2

/-- All lines of a stream. -/
def linesOf (cs : List Char) : List (List Char) := linesOfF cs.length cs

/-- Boolean test that the first list starts the second, used for substring search. -/
def startsWithL : List Char → List Char → Bool
  | [], _ => true
  | _ :: _, [] => false
  | p :: ps, c :: cs => decide (p = c) && startsWithL ps cs

/-- Python `pat in s` substring containment. -/
def containsStr (s pat : List Char) : Bool :=
  match s with
  | [] => startsWithL pat []
  | c :: rest => startsWithL pat (c :: rest) || containsStr rest pat

/-- Greedy run of ASCII digits, for the `\d+` tail of the version regex. -/
def takeDigits : List Char → List Char
  | [] => []
  | c :: rest => if c.isDigit then c :: takeDigits rest else []

/-- One anchored attempt of the regex `(\d\.\d\.\d+)` at the head of the
string (`_iterate_lines` line 118). -/
def matchVerAt : List Char → Option (List Char)
  | d1 :: c1 :: d2 :: c2 :: d3 :: rest =>
    if d1.isDigit && decide (c1 = '.') && d2.isDigit && decide (c2 = '.') && d3.isDigit then
      some (d1 :: c1 :: d2 :: c2 :: d3 :: takeDigits rest)
    else none
  | _ => none

/-- Python `re.search(r'(\d\.\d\.\d+)', line)`: leftmost match of the dotted
version pattern, greedy in its final digit run. -/
def extractVersion : List Char → Option (List Char)
  | [] => none
  | c :: rest =>
    match matchVerAt (c :: rest) with
    | some v => some v
    | none => extractVersion rest

/-- Python `buff.rfind('\n')`: index of the last newline, `-1` if absent. -/
def rfindNl : List Char → Int
  | [] => -1
  | c :: rest =>
    let r := rfindNl rest
    if 0 ≤ r then r + 1
    else if c = '\n' then 0 else -1

/-- Python slice `l[:i]` for the index values `rfind` can produce
(a natural index, or a negative index counted from the end). -/
def pySliceTo (l : List Char) (i : Int) : List Char :=
  l.take (if 0 ≤ i then i.toNat else l.length - i.natAbs)

/-- The state of one `LogFile` object: the wrapped stream (content plus
current byte position and seekability) and the lazy memo fields
`_start`, `_end`, `_filesize`, `_num_lines`, `_restarts`, `_binary`.
`boundsScans` and `lineScans` are ghost counters recording how many times
`_calculate_bounds` and `_iterate_lines` actually scanned the stream. -/
structure LogFileSt where
  content : List Char
  pos : Nat
  fromStdin : Bool
  startM : Option DT
  endM : Option DT
  filesizeM : Option Nat
  numLinesM : Option Nat
  restartsM : Option (List (List Char × List Char))
  binaryM : Option String
  boundsScans : Nat
  lineScans : Nat
deriving DecidableEq

/-- A freshly constructed `LogFile` on a seekable file. -/
def freshFile (c : List Char) : LogFileSt :=
  { content := c
    pos := 0
    fromStdin := false
    startM := none
    endM := none
    filesizeM := none
    numLinesM := none
    restartsM := none
    binaryM := none
    boundsScans := 0
    lineScans := 0 }

/-- A freshly constructed `LogFile` on the forward-only stdin stream. -/
def stdinFile (c : List Char) : LogFileSt :=
  { freshFile c with fromStdin := true }

/-- Relative seek.  Python raises IOError on a forward-only stream and on a
negative resulting offset; seeking past the end is allowed. -/
def seekRel (st : LogFileSt) (d : Int) : Option LogFileSt :=
  if st.fromStdin then none
  else
    let t : Int := (st.pos : Int) + d
    if t < 0 then none else some { st with pos := t.toNat }

/-- Python falsiness of an optional integer field (`None` and `0` are
falsy), used by the `if not self._filesize` style memo guards. -/
def falsyNat : Option Nat → Bool
  | none => true
  | some n => decide (n = 0)

/-- Keyword literals of `_iterate_lines`. -/
def verKw : List Char := "version".toList

def mongosKw : List Char := "mongos".toList

def mongoSKw : List Char := "MongoS".toList

def dbVerKw : List Char := "db version v".toList

def mongosBin : String := "mongos"

def mongodBin : String := "mongod"

/-- One line of the full scan (`_iterate_lines` lines 105-122): detect a
restart banner, update `_binary`, and append `(version, line)` to
`_restarts` when the version regex matches. -/
def restartStep (acc : Option String × List (List Char × List Char)) (line : List Char) :
    Option String × List (List Char × List Char) :=
  if containsStr line verKw then
    if containsStr line mongosKw || containsStr line mongoSKw then
      match extractVersion line with
      | some v => (some mongosBin, acc.2 ++ [(v, line)])
      | none => (some mongosBin, acc.2)
    else if containsStr line dbVerKw then
      match extractVersion line with
      | some v => (some mongodBin, acc.2 ++ [(v, line)])
      | none => (some mongodBin, acc.2)
    else acc
  else acc

/-- Method `_iterate_lines` (lines 97-127): full scan from the current position;
sets `_num_lines` to `l+1` where `l` starts at `0` and is the enumeration
index of the last line (hence `1`, not `0`, for an empty stream), collects
restarts and the binary name, then seeks back to offset 0 — which raises on
stdin. -/
def LogFile.iterateLines (st : LogFileSt) : Option LogFileSt :=
  let ls := linesOf (st.content.drop st.pos)
  let acc := ls.foldl restartStep (st.binaryM, [])
  let n : Nat := if ls = [] then 1 else ls.length
  let st1 : LogFileSt :=
    { st with
      numLinesM := some n
      restartsM := some acc.2
      binaryM := acc.1
      pos := max st.pos st.content.length
      lineScans := st.lineScans + 1 }
  if st1.fromStdin then none else some { st1 with pos := 0 }

/-- First parseable timestamp among a list of lines. -/
def firstTS (dtf : Dtf) : List (List Char) → Option DT
  | [] => none
  | l :: rest =>
    match dtf l with
    | some d => some d
    | none => firstTS dtf rest

/-- The raw start bound: first timestamp scanning forward from the current
position; the memo field keeps its old value when no line parses
(`_start` is only assigned on the `break`). -/
def LogFile.rawStart (st : LogFileSt) (dtf : Dtf) : Option DT :=
  match firstTS dtf (linesOf (st.content.drop st.pos)) with
  | some d => some d
  | none => st.startM

/-- The raw end bound: last timestamp (in file order) within the final
15000-byte window, found by scanning `reversed(readlines())`. -/
def LogFile.rawEnd (st : LogFileSt) (dtf : Dtf) : Option DT :=
  match firstTS dtf (linesOf (st.content.drop (st.content.length - min st.content.length 15000))).reverse with
  | some d => some d
  | none => st.endM

/-- Method `_calculate_bounds` (lines 130-163): on stdin it returns `False`
without touching anything; otherwise it computes the raw bounds and the
file size, applies the year-rollover correction to `_start` when
`_end < _start` under Python 2 `None` ordering, and seeks back to 0. -/
def LogFile.calcBounds (st : LogFileSt) (dtf : Dtf) : Option LogFileSt :=
  if st.fromStdin then some st
  else
    let s0 := LogFile.rawStart st dtf
    let e0 := LogFile.rawEnd st dtf
    some { st with
      startM := if pyLtOpt e0 s0 then s0.map DT.decYear else s0
      endM := e0
      filesizeM := some st.content.length
      pos := 0
      boundsScans := st.boundsScans + 1 }

/-- Property `start` (lines 21-28): `None` for stdin; recomputes whenever
the memo field is falsy (i.e. `None`). -/
def LogFile.start (st : LogFileSt) (dtf : Dtf) : Option (Option DT × LogFileSt) :=
  if st.fromStdin then some (none, st)
  else
    match st.startM with
    | some d => some (some d, st)
    | none => (LogFile.calcBounds st dtf).map fun s => (s.startM, s)

/-- Property `end` (lines 30-37). -/
def LogFile.end' (st : LogFileSt) (dtf : Dtf) : Option (Option DT × LogFileSt) :=
  if st.fromStdin then some (none, st)
  else
    match st.endM with
    | some d => some (some d, st)
    | none => (LogFile.calcBounds st dtf).map fun s => (s.endM, s)

/-- Property `filesize` (lines 39-46): the memo guard `if not
self._filesize` also fires when the computed size is `0`. -/
def LogFile.filesize (st : LogFileSt) (dtf : Dtf) : Option (Option Nat × LogFileSt) :=
  if st.fromStdin then some (none, st)
  else if falsyNat st.filesizeM then
    (LogFile.calcBounds st dtf).map fun s => (s.filesizeM, s)
  else some (st.filesizeM, st)

/-- Property `num_lines` (lines 48-55): `None` for stdin without scanning. -/
def LogFile.num_lines (st : LogFileSt) : Option (Option Nat × LogFileSt) :=
  if st.fromStdin then some (none, st)
  else if falsyNat st.numLinesM then
    (LogFile.iterateLines st).map fun s => (s.numLinesM, s)
  else some (st.numLinesM, st)

/-- Method `__len__` (lines 92-94): the length query equals `num_lines`. -/
def LogFile.lenP (st : LogFileSt) : Option (Option Nat × LogFileSt) :=
  LogFile.num_lines st

/-- Property `restarts` (lines 57-62): no stdin guard — the full scan runs
even on stdin and then hits the `seek(0)`. -/
def LogFile.restarts (st : LogFileSt) :
    Option (Option (List (List Char × List Char)) × LogFileSt) :=
  if falsyNat st.numLinesM then
    (LogFile.iterateLines st).map fun s => (s.restartsM, s)
  else some (st.restartsM, st)

/-- Property `binary` (lines 64-69): same structure as `restarts`. -/
def LogFile.binary (st : LogFileSt) : Option (Option String × LogFileSt) :=
  if falsyNat st.numLinesM then
    (LogFile.iterateLines st).map fun s => (s.binaryM, s)
  else some (st.binaryM, st)

/-- The accumulator loop of the `versions` property (lines 71-78): append a
version token only when it differs from the last appended one. -/
def versionsGo (acc : List (List Char)) : List (List Char × List Char) → List (List Char)
  | [] => acc
  | (v, _) :: rest =>
    if acc = [] ∨ ¬acc.getLast? = some v then versionsGo (acc ++ [v]) rest
    else versionsGo acc rest

/-- Pure core of the `versions` property. -/
def versionsOf (rs : List (List Char × List Char)) : List (List Char) :=
  versionsGo [] rs

/-- Property `versions`: derived from `restarts`. -/
def LogFile.versionsP (st : LogFileSt) : Option (List (List Char) × LogFileSt) :=
  (LogFile.restarts st).map fun pr => (versionsOf (pr.1.getD []), pr.2)

/-- The `while line != ''` loop of `_find_curr_line` (lines 189-197) over
the remaining characters: read one line at a time, return the first record
whose line parses with a timestamp; in `prev` mode give up after the very
first read; stop at end of stream.  Returns the record (if any) and the
number of characters consumed.  Fuel-indexed; `rem.length + 1` units
always suffice since every continued iteration consumes at least one
character. -/
def scanLinesF (dtf : Dtf) (prev : Bool) : Nat → List Char → Option LogRec × Nat
  | 0, _ => (none, 0)
  | Nat.succ k, rem =>
    let line := (takeLine rem).1
    match dtf line with
    | some d => (some (line, d), line.length)
    | none =>
      if prev then (none, line.length)
      else if line = [] then (none, line.length)
      else
        let pr := scanLinesF dtf prev k (takeLine rem).2
        (pr.1, line.length + pr.2)

/-- The forward-scan loop of `_find_curr_line` with adequate fuel. -/
def scanLines (dtf : Dtf) (prev : Bool) (rem : List Char) : Option LogRec × Nat :=
  scanLinesF dtf prev (rem.length + 1) rem

/-- The forward-scan loop acting on the file-handle state. -/
def LogFile.scanTS (dtf : Dtf) (prev : Bool) (st : LogFileSt) : Option LogRec × LogFileSt :=
  let pr := scanLines dtf prev (st.content.drop st.pos)
  (pr.1, { st with pos := st.pos + pr.2 })

/-- Method `_find_curr_line` (lines 166-197): read a bounded window (at most
15000 characters) ending at the current position, locate the last newline
in it — or, in `prev` mode, the newline before that one, via the Python
slice `buff[:newline_pos]` which wraps around to `buff[:-1]` when the
first `rfind` failed — seek to that newline, and scan forward.  The
position is restored to `curr_pos` before the not-found return (line 177),
so the state is unchanged in that case. -/
def LogFile.findCurrLine (dtf : Dtf) (st : LogFileSt) (prev : Bool) :
    Option LogRec × LogFileSt :=
  let jb := min st.pos 15000
  let buff := (st.content.drop (st.pos - jb)).take jb
  let np0 : Int := rfindNl buff
  let np : Int := if prev then rfindNl (pySliceTo buff np0) else np0
  if np < 0 then (none, st)
  else LogFile.scanTS dtf prev { st with pos := st.pos + np.toNat - jb }

/-- Python 2 `ceil(step_size / 2.)`: rounds towards positive infinity, so
towards zero for the negative steps the bisection produces. -/
def ceilHalf (s : Int) : Int :=
  if 0 ≤ s then ((s.toNat + 1) / 2 : Nat) else -((s.natAbs / 2 : Nat) : Int)

/-- The bisection loop of `fast_forward` (lines 222-233): while the step
exceeds 100 bytes, halve it (rounding up), seek relative by it, locate the
line there, and orient the next step by comparing its timestamp with the
target; abort with `ll = None` when no record is found.  `none` is a seek
error.  Fuel-indexed; `step.natAbs + 1` units suffice because the step
magnitude strictly shrinks every iteration. -/
def LogFile.bisectF (dtf : Dtf) (T : DT) :
    Nat → LogFileSt → Int → Option LogRec → Option (LogFileSt × Option LogRec)
  | 0, st, _, ll => some (st, ll)
  | Nat.succ k, st, step, ll =>
    if 100 < step.natAbs then
      let s1 := ceilHalf step
      match seekRel st s1 with
      | none => none
      | some stA =>
        let pr := LogFile.findCurrLine dtf stA false
        match pr.1 with
        | none => some (pr.2, none)
        | some r =>
          let s2 : Int := if DT.leb T r.2 then -(s1.natAbs : Int) else (s1.natAbs : Int)
          LogFile.bisectF dtf T k pr.2 s2 (some r)
    else some (st, ll)

/-- The bisection phase of `fast_forward` (lines 214-233): the access to
the `filesize` property (which may itself trigger the bounds scan, with
its side effects on position and memo fields) followed by the bisection
loop with `step_size = filesize`. -/
def LogFile.bisectPhase (st : LogFileSt) (dtf : Dtf) (T : DT) :
    Option (LogFileSt × Option LogRec) :=
  (LogFile.filesize st dtf).bind fun pr =>
    let step : Int := ((pr.1.getD 0 : Nat) : Int)
    LogFile.bisectF dtf T (step.natAbs + 1) pr.2 step none

/-- The backward-correction loop of `fast_forward` (lines 238-241): while
a record is held, the position is at least 2 and its timestamp is still at
or past the target, step back two bytes and locate the previous line.
Fuel-indexed; `st.pos + 1` units suffice because the position strictly
decreases every iteration. -/
def LogFile.backLoopF (dtf : Dtf) (T : DT) : Nat → LogFileSt → Option LogRec → LogFileSt
  | 0, st, _ => st
  | Nat.succ k, st, ll =>
    match ll with
    | none => st
    | some r =>
      if 2 ≤ st.pos ∧ DT.leb T r.2 then
        let pr := LogFile.findCurrLine dtf { st with pos := st.pos - 2 } true
        LogFile.backLoopF dtf T k pr.2 pr.1
      else st

/-- The backward-correction loop with adequate fuel. -/
def LogFile.backLoop (dtf : Dtf) (T : DT) (st : LogFileSt) (ll : Option LogRec) : LogFileSt :=
  LogFile.backLoopF dtf T (st.pos + 1) st ll

/-- The stdin path of `fast_forward` (lines 206-211): consume lines until
one parses with a timestamp at or past the target; `next()` raises at end
of stream (`none`).  Returns the number of characters consumed. -/
def ffScanF (dtf : Dtf) (T : DT) : Nat → List Char → Option Nat
  | 0, _ => none
  | Nat.succ k, rem =>
    match rem with
    | [] => none
    | c :: rest =>
      let line := (takeLine (c :: rest)).1
      let keep : Bool :=
        match dtf line with
        | some d => DT.leb T d
        | none => false
      if keep then some line.length
      else (ffScanF dtf T k (takeLine (c :: rest)).2).map fun n => line.length + n

/-- Method `fast_forward` (lines 200-241): linear consumption on stdin, otherwise
the bisection phase followed — only when the last located record is
present — by the backward correction. -/
def LogFile.fast_forward (st : LogFileSt) (dtf : Dtf) (T : DT) : Option LogFileSt :=
  if st.fromStdin then
    (ffScanF dtf T (st.content.length + 1) (st.content.drop st.pos)).map fun n =>
      { st with pos := st.pos + n }
  else
    (LogFile.bisectPhase st dtf T).bind fun pr =>
      match pr.2 with
      | none => some pr.1
      | some r => some (LogFile.backLoop dtf T pr.1 (some r))

/-- A parser that never recognises a timestamp. -/
def dtNone : Dtf := fun _ => none

/-- A parser given by an explicit finite table of full lines. -/
def lookupDT : List (List Char × DT) → Dtf
  | [], _ => none
  | (k, d) :: rest, l => if k = l then some d else lookupDT rest l

/-! Concrete instances used by counterexamples and witnesses. -/

/-- A two-line file whose second line is the only one at or past the
target timestamp. -/
def cexC1c : List Char := "a\nb2\n".toList

def cexC1dt : Dtf := lookupDT [("a\n".toList, ⟨2021, 1⟩), ("b2\n".toList, ⟨2021, 2⟩)]

def cexC1T : DT := ⟨2021, 2⟩

/-- A two-line file whose raw end timestamp lies two calendar years before
its raw start timestamp. -/
def cexC2c : List Char := "A\nB\n".toList

def cexC2dt : Dtf := lookupDT [("A\n".toList, ⟨2021, 300⟩), ("B\n".toList, ⟨2019, 5⟩)]

/-- A same-year file for the amended rollover bound. -/
def witC2c : List Char := "A\nB\n".toList

def witC2dt : Dtf := lookupDT [("A\n".toList, ⟨2021, 1⟩), ("B\n".toList, ⟨2021, 2⟩)]

/-- A minimal one-line file. -/
def oneLineC : List Char := "x\n".toList

/-- The state of a fresh seekable `LogFile` on `oneLineC` after its single
full line scan. -/
def oneLineScanned : LogFileSt :=
  { content := oneLineC
    pos := 0
    fromStdin := false
    startM := none
    endM := none
    filesizeM := none
    numLinesM := some 1
    restartsM := some []
    binaryM := none
    boundsScans := 0
    lineScans := 1 }

/-- A three-line file: the timestamped line `cc` follows an untimestamped
line boundary. -/
def cexC7c : List Char := "aa\nbb\ncc\n".toList

def cexC7dt : Dtf := lookupDT [("cc\n".toList, ⟨2021, 1⟩)]

def cexC7st : LogFileSt := { freshFile cexC7c with pos := 9 }

/-- A restart banner line with a binary marker but no dotted version. -/
def cexC10c : List Char := "mongos starting version two\n".toList

/-- Witness data for the bisection no-op claim. -/
def witC8c : List Char := "ab\n".toList

def witC8T : DT := ⟨2020, 0⟩

/-- The state a fresh `LogFile` on `witC8c` reaches after the bounds scan
triggered by the `filesize` access inside `fast_forward`. -/
def witC8st : LogFileSt :=
  { content := witC8c
    pos := 0
    fromStdin := false
    startM := none
    endM := none
    filesizeM := some 3
    numLinesM := none
    restartsM := none
    binaryM := none
    boundsScans := 1
    lineScans := 0 }

/-! Helper lemmas about the stream primitives. -/

/-- A line and the remainder reassemble to the original stream. -/
theorem takeLine_append : ∀ cs : List Char, (takeLine cs).1 ++ (takeLine cs).2 = cs
  | [] => rfl
  | c :: rest => by
    simp only [takeLine]
    split
    · simp
    · simpa using takeLine_append rest

/-- A line read from a nonempty stream is nonempty. -/
theorem takeLine_fst_ne_nil (c : Char) (rest : List Char) : (takeLine (c :: rest)).1 ≠ [] := by
  simp only [takeLine]
  split <;> simp

/-- Reading a line positioned exactly at a newline yields just that
newline character. -/
theorem takeLine_nl (r : List Char) : takeLine ('\n' :: r) = (['\n'], r) := by
  simp [takeLine]

/-- The `rfind` result really is the position of a newline character. -/
theorem rfindNl_spec : ∀ (l : List Char) (k : Nat), rfindNl l = (k : Int) →
    k < l.length ∧ l.getD k 'x' = '\n'
  | [], k, h => by simp [rfindNl] at h
  | c :: rest, k, h => by
    simp only [rfindNl] at h
    by_cases hr : 0 ≤ rfindNl rest
    · rw [if_pos hr] at h
      obtain ⟨k0, hk0⟩ : ∃ k0 : Nat, rfindNl rest = (k0 : Int) := ⟨(rfindNl rest).toNat, by omega⟩
      have hk : k = k0 + 1 := by omega
      obtain ⟨hlt, hget⟩ := rfindNl_spec rest k0 hk0
      subst hk
      exact ⟨by simp; omega, by simpa [List.getD_cons_succ] using hget⟩
    · rw [if_neg hr] at h
      by_cases hc : c = '\n'
      · rw [if_pos hc] at h
        have hk : k = 0 := by omega
        subst hk
        exact ⟨by simp, by simpa [List.getD_cons_zero] using hc⟩
      · rw [if_neg hc] at h
        omega

/-- Fuel-exhaustion never matters for the forward scan: in `prev` mode it
returns after the very first read. -/
theorem scanLines_prev_of_none (dtf : Dtf) (rem : List Char)
    (h : dtf (takeLine rem).1 = none) :
    scanLines dtf true rem = (none, (takeLine rem).1.length) := by
  simp [scanLines, scanLinesF, h]

/-- When the parser never yields a timestamp, the forward scan never
returns a record. -/
theorem scanLinesF_fst_none (dtf : Dtf) (hdtf : ∀ l, dtf l = none) (prev : Bool) :
    ∀ (k : Nat) (rem : List Char), (scanLinesF dtf prev k rem).1 = none
  | 0, _ => rfl
  | Nat.succ k, rem => by
    simp only [scanLinesF, hdtf]
    by_cases hp : prev
    · simp [hp]
    · by_cases hl : (takeLine rem).1 = []
      · simp [hp, hl]
      · simpa [hp, hl] using scanLinesF_fst_none dtf hdtf prev k (takeLine rem).2

/-- When the parser never yields a timestamp, the line locator reports not
found. -/
theorem findCurrLine_fst_none (dtf : Dtf) (hdtf : ∀ l, dtf l = none)
    (st : LogFileSt) (prev : Bool) : (LogFile.findCurrLine dtf st prev).1 = none := by
  simp only [LogFile.findCurrLine]
  split <;> split <;>
    first
      | rfl
      | simpa only [LogFile.scanTS, scanLines] using scanLinesF_fst_none dtf hdtf prev _ _

/-- The bounds scan on a seekable stream, written out. -/
theorem calcBounds_eq (st : LogFileSt) (dtf : Dtf) (h : st.fromStdin = false) :
    LogFile.calcBounds st dtf = some
      { st with
        startM := if pyLtOpt (LogFile.rawEnd st dtf) (LogFile.rawStart st dtf) then
            (LogFile.rawStart st dtf).map DT.decYear else LogFile.rawStart st dtf
        endM := LogFile.rawEnd st dtf
        filesizeM := some st.content.length
        pos := 0
        boundsScans := st.boundsScans + 1 } := by
  simp [LogFile.calcBounds, h]

/-- The `filesize` property of a fresh seekable file triggers the bounds
scan. -/
theorem filesize_fresh (c : List Char) (dtf : Dtf) :
    LogFile.filesize (freshFile c) dtf =
      (LogFile.calcBounds (freshFile c) dtf).map fun s => (s.filesizeM, s) := by
  simp [LogFile.filesize, freshFile, falsyNat]

/-- A total order fact for the timestamp model. -/
theorem DT.leb_of_ltb_false {a b : DT} (h : DT.ltb b a = false) : DT.leb a b = true := by
  simp only [DT.ltb, DT.leb, decide_eq_false_iff_not, decide_eq_true_eq] at *
  omega

/-- Decrementing the year of the later of two same-year timestamps puts it
(weakly) below the other. -/
theorem DT.leb_decYear {a b : DT} (hy : a.year = b.year) :
    DT.leb (DT.decYear a) b = true := by
  simp only [DT.leb, DT.decYear, decide_eq_true_eq]
  omega

/-- Halving a nonnegative step keeps it nonnegative. -/
theorem ceilHalf_nonneg {s : Int} (h : 0 ≤ s) : 0 ≤ ceilHalf s := by
  simp only [ceilHalf, if_pos h]
  exact_mod_cast Nat.zero_le _

/-- Taking a prefix of a list preserves defaulted indexing below the cut. -/
theorem getD_take : ∀ (l : List Char) (n k : Nat), k < n →
    (l.take n).getD k 'x' = l.getD k 'x'
  | [], n, k, _ => by simp
  | c :: rest, n, k, h => by
    cases n with
    | zero => omega
    | succ n =>
      cases k with
      | zero => simp
      | succ k => simpa using getD_take rest n k (by omega)

/-- Dropping a prefix of a list shifts defaulted indexing. -/
theorem getD_drop : ∀ (l : List Char) (n k : Nat), (l.drop n).getD k 'x' = l.getD (n + k) 'x'
  | _, 0, _ => by simp
  | [], _ + 1, _ => by simp
  | c :: rest, n + 1, k => by simp [Nat.succ_add, getD_drop rest n k]

/-- Splitting a list at a valid index. -/
theorem drop_cons_of_getD : ∀ (l : List Char) (n : Nat), n < l.length →
    l.drop n = l.getD n 'x' :: l.drop (n + 1)
  | [], n, h => by simp at h
  | c :: rest, 0, _ => by simp
  | c :: rest, n + 1, h => by simpa using drop_cons_of_getD rest n (by simpa using h)

/-- The Python slice `buff[:i]` reads back into `buff`. -/
theorem pySliceTo_getD (l : List Char) (i : Int) (k : Nat)
    (hk : k < (pySliceTo l i).length) :
    (pySliceTo l i).getD k 'x' = l.getD k 'x' ∧ k < l.length := by
  simp only [pySliceTo, List.length_take] at hk ⊢
  exact ⟨getD_take l _ k (by omega), by omega⟩

/-- The window buffer of `_find_curr_line` reads back into the file
content. -/
theorem buff_getD (c : List Char) (p jb k : Nat) (hjb : jb ≤ p)
    (hk : k < ((c.drop (p - jb)).take jb).length) :
    ((c.drop (p - jb)).take jb).getD k 'x' = c.getD (p - jb + k) 'x' ∧
      p - jb + k < c.length := by
  simp only [List.length_take, List.length_drop] at hk
  exact ⟨by rw [getD_take _ _ _ (by omega), getD_drop], by omega⟩

/-- Key behaviour of `_find_curr_line` in previous-line mode: the seek at
line 187 lands exactly on the located newline character, so the first
`readline` returns the one-character line `"\n"`; as long as the parser
gives no timestamp to a bare newline, the locator therefore reports not
found — regardless of any timestamped lines that follow. -/
theorem findCurrLine_prev_none (dtf : Dtf) (st : LogFileSt) (h : dtf ['\n'] = none) :
    (LogFile.findCurrLine dtf st true).1 = none := by
  simp only [LogFile.findCurrLine, if_true]
  split
  · rfl
  · rename_i hnp
    set jb := min st.pos 15000 with hjbdef
    set buff := (st.content.drop (st.pos - jb)).take jb with hbuffdef
    obtain ⟨k, hk⟩ : ∃ k : Nat, rfindNl (pySliceTo buff (rfindNl buff)) = (k : Int) :=
      ⟨(rfindNl (pySliceTo buff (rfindNl buff))).toNat, by omega⟩
    obtain ⟨hks, hgd⟩ := rfindNl_spec _ k hk
    obtain ⟨hgd2, hkb⟩ := pySliceTo_getD buff (rfindNl buff) k hks
    have hbg : buff.getD k 'x' = '\n' := by rw [← hgd2, hgd]
    have hjble : jb ≤ st.pos := by omega
    obtain ⟨hcg, hcl⟩ := buff_getD st.content st.pos jb k hjble (by rw [← hbuffdef]; exact hkb)
    have hcg2 : st.content.getD (st.pos - jb + k) 'x' = '\n' := by
      rw [← hcg, ← hbuffdef, hbg]
    have htn : (rfindNl (pySliceTo buff (rfindNl buff))).toNat = k := by omega
    rw [htn]
    have hpos : st.pos + k - jb = st.pos - jb + k := by omega
    rw [hpos]
    simp only [LogFile.scanTS, scanLines]
    rw [drop_cons_of_getD st.content (st.pos - jb + k) hcl, hcg2]
    simp [scanLinesF, takeLine_nl, h]

/-- The `versions` accumulator loop computes destuttering of the version
tokens, relative to an accumulator with known last element. -/
theorem versionsGo_destutter :
    ∀ (rs : List (List Char × List Char)) (acc : List (List Char)) (x : List Char),
      versionsGo (acc ++ [x]) rs =
        acc ++ List.destutter' (fun a b => a ≠ b) x (rs.map Prod.fst)
  | [], acc, x => by simp [versionsGo]
  | (v, r) :: rest, acc, x => by
    simp only [versionsGo, List.map_cons, List.destutter'_cons]
    have hlast : (acc ++ [x]).getLast? = some x := by
      simp [List.getLast?_append_cons]
    by_cases hxv : x = v
    · rw [if_neg (by simp [hlast, hxv]), if_neg (by simp [hxv])]
      exact versionsGo_destutter rest acc x
    · rw [if_pos (Or.inr (by simp [hlast, hxv])), if_pos hxv]
      have := versionsGo_destutter rest (acc ++ [x]) v
      rw [List.append_assoc] at this
      simpa using this

/-- The `versions` property destutters the version tokens of `restarts`. -/
theorem versionsOf_destutter (rs : List (List Char × List Char)) :
    versionsOf rs = List.destutter (fun a b => a ≠ b) (rs.map Prod.fst) := by
  cases rs with
  | nil => rfl
  | cons p t =>
    obtain ⟨v, r⟩ := p
    simp only [versionsOf, versionsGo, List.map_cons, List.destutter_cons']
    rw [if_pos (Or.inl trivial)]
    simpa using versionsGo_destutter t [] v

/-- Claim C6: `versions` is the sequence of version tokens of `restarts`
in order with consecutive duplicates collapsed; its length is at most that
of `restarts` and it has no two adjacent equal entries. -/
theorem claim_C6 (rs : List (List Char × List Char)) :
    versionsOf rs = List.destutter (fun a b => a ≠ b) (rs.map Prod.fst) ∧
    (versionsOf rs).length ≤ rs.length ∧
    List.Chain' (fun a b => a ≠ b) (versionsOf rs) := by
  refine ⟨versionsOf_destutter rs, ?_, ?_⟩
  · rw [versionsOf_destutter]
    calc (List.destutter (fun a b => a ≠ b) (rs.map Prod.fst)).length
        ≤ (rs.map Prod.fst).length := (List.destutter_sublist _ _).length_le
      _ = rs.length := by simp
  · rw [versionsOf_destutter]
    exact List.destutter_is_chain' _ _

/-- Claim C9: on a seekable stream both metadata scans — the bounds scan
and the full line scan — return with the stream position restored to byte
offset 0. -/
theorem claim_C9 (st : LogFileSt) (dtf : Dtf) (h : st.fromStdin = false) :
    (LogFile.calcBounds st dtf).map LogFileSt.pos = some 0 ∧
    (LogFile.iterateLines st).map LogFileSt.pos = some 0 := by
  constructor
  · rw [calcBounds_eq st dtf h]
    rfl
  · simp [LogFile.iterateLines, h]

/-- Witness for claim C9 at a concrete seekable one-line file. -/
theorem claim_C9_witness :
    (freshFile oneLineC).fromStdin = false ∧
    ((LogFile.calcBounds (freshFile oneLineC) dtNone).map LogFileSt.pos = some 0 ∧
      (LogFile.iterateLines (freshFile oneLineC)).map LogFileSt.pos = some 0) :=
  ⟨rfl, claim_C9 (freshFile oneLineC) dtNone rfl⟩

/-- Claim C10: a line containing the keyword `version` and the `mongos`
marker but no dotted numeric token sets `binary` while appending nothing
to `restarts`, so after the scan `binary` is present while `restarts` is
empty. -/
theorem claim_C10 :
    containsStr cexC10c verKw = true ∧
    containsStr cexC10c mongosKw = true ∧
    extractVersion cexC10c = none ∧
    (LogFile.binary (freshFile cexC10c)).map Prod.fst = some (some mongosBin) ∧
    (LogFile.restarts (freshFile cexC10c)).map Prod.fst = some (some []) := by
  decide

/-- Counterexample for claim C3: on an empty file the length query returns
`1` even though iterating the stream yields no records at all. -/
theorem claim_C3_cex :
    (LogFile.lenP (freshFile [])).map Prod.fst = some (some 1) ∧
    linesOf ([] : List Char) = [] := by
  decide

/-- Claim C3 (amended): `num_lines` — and the length query — equals the
number of line-break-delimited records obtained by iterating the stream,
except that an empty file reports `1` rather than `0` (the `l+1` of
`_iterate_lines` line 124 with the `l = 0` initialisation of line 102);
that is, the value is `max(count, 1)`. -/
theorem claim_C3 (c : List Char) :
    (LogFile.num_lines (freshFile c)).map Prod.fst =
      some (some (max (linesOf c).length 1)) ∧
    LogFile.lenP (freshFile c) = LogFile.num_lines (freshFile c) := by
  constructor
  · simp only [LogFile.num_lines, LogFile.iterateLines, freshFile, falsyNat,
      List.drop_zero, if_true, Option.map_some']
    by_cases hl : linesOf c = []
    · simp [hl]
    · have hpos : 0 < (linesOf c).length := List.length_pos.mpr hl
      have hmax : max (linesOf c).length 1 = (linesOf c).length := by omega
      simp [hl, hmax]
  · rfl

/-- Counterexample for claim C4: on a forward-only stream the `restarts`
property raises (the full scan ends with `seek(0)`, line 127, which is
illegal on stdin) instead of completing. -/
theorem claim_C4_cex : LogFile.restarts (stdinFile oneLineC) = none := by
  decide

/-- Claim C4 (amended): on a forward-only stream the bounds properties and
`num_lines` yield an explicit absent value without any scan and without
raising, while `restarts` and `binary` do run the full scan but then raise
when restoring the stream position. -/
theorem claim_C4 (c : List Char) (dtf : Dtf) :
    LogFile.start (stdinFile c) dtf = some (none, stdinFile c) ∧
    LogFile.end' (stdinFile c) dtf = some (none, stdinFile c) ∧
    LogFile.filesize (stdinFile c) dtf = some (none, stdinFile c) ∧
    LogFile.num_lines (stdinFile c) = some (none, stdinFile c) ∧
    LogFile.restarts (stdinFile c) = none ∧
    LogFile.binary (stdinFile c) = none := by
  refine ⟨?_, ?_, ?_, ?_, ?_, ?_⟩ <;>
    simp [LogFile.start, LogFile.end', LogFile.filesize, LogFile.num_lines,
      LogFile.restarts, LogFile.binary, LogFile.iterateLines, stdinFile, freshFile,
      falsyNat]

/-- Counterexample for claim C5: on an empty seekable file the computed
`filesize` is `0`, which is falsy, so a second access re-runs the bounds
scan (the ghost counter reaches `2`) — recomputation is triggered by
repeated access. -/
theorem claim_C5_cex :
    ((LogFile.filesize (freshFile []) dtNone).bind fun p =>
      (LogFile.filesize p.2 dtNone).map fun q => (q.1, q.2.boundsScans)) =
        some (some 0, 2) := by
  decide

/-- Claim C5 (amended): memoization holds whenever the stored sentinel is
truthy.  In particular the full line scan runs exactly once: after a first
access to `num_lines` on a fresh seekable file the stored count is at
least `1`, so further accesses to `num_lines`, `restarts` and `binary`
return the identical values without re-invoking the scan.  (The falsy
sentinels — absent `start`/`end`, zero `filesize` — do re-trigger their
scan, as the counterexample shows.) -/
theorem claim_C5 (c : List Char) (v : Option Nat) (s1 : LogFileSt)
    (h : LogFile.num_lines (freshFile c) = some (v, s1)) :
    LogFile.num_lines s1 = some (v, s1) ∧
    LogFile.restarts s1 = some (s1.restartsM, s1) ∧
    LogFile.binary s1 = some (s1.binaryM, s1) ∧
    s1.lineScans = 1 := by
  have hiter : LogFile.iterateLines (freshFile c) = some
      { freshFile c with
        numLinesM := some (if linesOf c = [] then 1 else (linesOf c).length)
        restartsM := some ((linesOf c).foldl restartStep (none, [])).2
        binaryM := ((linesOf c).foldl restartStep (none, [])).1
        pos := 0
        lineScans := 1 } := by
    simp only [LogFile.iterateLines, freshFile, List.drop_zero]
    rfl
  have hnl : LogFile.num_lines (freshFile c) =
      (LogFile.iterateLines (freshFile c)).map fun s => (s.numLinesM, s) := by
    simp [LogFile.num_lines, freshFile, falsyNat]
  rw [hnl, hiter, Option.map_some'] at h
  have h2 := Option.some.inj h
  have hv : v = some (if linesOf c = [] then 1 else (linesOf c).length) :=
    (congrArg Prod.fst h2).symm
  have hs : s1 = { freshFile c with
      numLinesM := some (if linesOf c = [] then 1 else (linesOf c).length)
      restartsM := some ((linesOf c).foldl restartStep (none, [])).2
      binaryM := ((linesOf c).foldl restartStep (none, [])).1
      pos := 0
      lineScans := 1 } := (congrArg Prod.snd h2).symm
  have hn0 : ¬(if linesOf c = [] then 1 else (linesOf c).length) = 0 := by
    by_cases hl : linesOf c = []
    · simp [hl]
    · have := List.length_pos.mpr hl
      simp [hl]
  subst hs
  subst hv
  refine ⟨?_, ?_, ?_, rfl⟩ <;>
    simp [LogFile.num_lines, LogFile.restarts, LogFile.binary, freshFile, falsyNat, hn0]

/-- Witness for claim C5 at a concrete one-line file. -/
theorem claim_C5_witness :
    LogFile.num_lines (freshFile oneLineC) = some (some 1, oneLineScanned) ∧
    (LogFile.num_lines oneLineScanned = some (some 1, oneLineScanned) ∧
      LogFile.restarts oneLineScanned = some (oneLineScanned.restartsM, oneLineScanned) ∧
      LogFile.binary oneLineScanned = some (oneLineScanned.binaryM, oneLineScanned) ∧
      oneLineScanned.lineScans = 1) :=
  ⟨by decide, claim_C5 oneLineC (some 1) oneLineScanned (by decide)⟩

/-- Counterexample for claim C2: a seekable file with parseable timestamps
whose raw end lies two calendar years before its raw start.  The rollover
correction decrements the start year by one, which is not enough:
afterwards `start > end`. -/
theorem claim_C2_cex :
    (firstTS cexC2dt (linesOf cexC2c)).isSome = true ∧
    ((LogFile.start (freshFile cexC2c) cexC2dt).bind fun p =>
      (LogFile.end' p.2 cexC2dt).map fun q => (p.1, q.1)) =
        some (some ⟨2020, 300⟩, some ⟨2019, 5⟩) ∧
    DT.leb ⟨2020, 300⟩ ⟨2019, 5⟩ = false := by
  decide

/-- Claim C2 (amended): when the raw end precedes the raw start the
correction decrements the start year by one; `start ≤ end` is guaranteed
when both raw bounds parse and lie in the same calendar year (a raw end a
full year or more earlier still yields `start > end`). -/
theorem claim_C2 (c : List Char) (dtf : Dtf) (a b : DT)
    (hs : firstTS dtf (linesOf c) = some a)
    (he : firstTS dtf (linesOf (c.drop (c.length - min c.length 15000))).reverse = some b)
    (hy : a.year = b.year) :
    (LogFile.calcBounds (freshFile c) dtf).map
      (fun s => match s.startM, s.endM with
        | some x, some y => DT.leb x y
        | _, _ => false) = some true := by
  have hrs : LogFile.rawStart (freshFile c) dtf = some a := by
    simp [LogFile.rawStart, freshFile, hs]
  have hre : LogFile.rawEnd (freshFile c) dtf = some b := by
    simp [LogFile.rawEnd, freshFile, he]
  rw [calcBounds_eq _ _ rfl]
  by_cases hlt : DT.ltb b a = true
  · simp [hrs, hre, pyLtOpt, hlt, DT.leb_decYear hy]
  · have hle := DT.leb_of_ltb_false (Bool.eq_false_iff.mpr hlt)
    simp [hrs, hre, pyLtOpt, Bool.eq_false_iff.mpr hlt, hle]

/-- Witness for claim C2 at a concrete same-year two-line file. -/
theorem claim_C2_witness :
    firstTS witC2dt (linesOf witC2c) = some ⟨2021, 1⟩ ∧
    firstTS witC2dt
        (linesOf (witC2c.drop (witC2c.length - min witC2c.length 15000))).reverse =
      some ⟨2021, 2⟩ ∧
    (⟨2021, 1⟩ : DT).year = (⟨2021, 2⟩ : DT).year ∧
    (LogFile.calcBounds (freshFile witC2c) witC2dt).map
      (fun s => match s.startM, s.endM with
        | some x, some y => DT.leb x y
        | _, _ => false) = some true :=
  ⟨by decide, by decide, rfl,
    claim_C2 witC2c witC2dt ⟨2021, 1⟩ ⟨2021, 2⟩ (by decide) (by decide) rfl⟩

/-- Counterexample for claim C7: previous-line mode reports not found even
though a line with a parseable timestamp (`cc`) follows the located line
boundary and the input is not exhausted — the forward scan from the same
boundary does find it. -/
theorem claim_C7_cex :
    (LogFile.findCurrLine cexC7dt cexC7st true).1 = none ∧
    ((LogFile.scanTS cexC7dt false { freshFile cexC7c with pos := 5 }).1).isSome = true := by
  decide

/-- Claim C7 (amended): in previous-line mode the locator examines only
the single first line read after seeking — and that seek lands on the
located line-break itself, so the line read is the bare newline; whenever
the parser assigns no timestamp to a bare newline, previous-line mode
reports not found, regardless of timestamped lines that follow. -/
theorem claim_C7 (dtf : Dtf) (st : LogFileSt) (h : dtf ['\n'] = none) :
    (LogFile.findCurrLine dtf st true).1 = none :=
  findCurrLine_prev_none dtf st h

/-- Witness for claim C7 at a concrete three-line file. -/
theorem claim_C7_witness :
    cexC7dt ['\n'] = none ∧
    (LogFile.findCurrLine cexC7dt { freshFile cexC7c with pos := 6 } true).1 = none :=
  ⟨by decide, claim_C7 cexC7dt { freshFile cexC7c with pos := 6 } (by decide)⟩

/-- Claim C8: when the record located during bisection is absent,
`fast_forward` returns without performing the backward correction, leaving
the stream position where the bisection phase left it; in particular this
holds for a fresh seekable file none of whose lines (nor line fragments)
the parser can timestamp — which covers the empty file. -/
theorem claim_C8 :
    (∀ (st : LogFileSt) (dtf : Dtf) (T : DT) (s : LogFileSt),
        st.fromStdin = false → LogFile.bisectPhase st dtf T = some (s, none) →
        LogFile.fast_forward st dtf T = some s) ∧
    (∀ (c : List Char) (dtf : Dtf) (T : DT), (∀ l, dtf l = none) →
        (LogFile.bisectPhase (freshFile c) dtf T).map Prod.snd = some none) := by
  constructor
  · intro st dtf T s h hb
    simp [LogFile.fast_forward, h, hb]
  · intro c dtf T hdtf
    have hnn : (0 : Int) ≤ ceilHalf ((c.length : Nat) : Int) :=
      ceilHalf_nonneg (by positivity)
    rw [LogFile.bisectPhase, filesize_fresh c dtf, calcBounds_eq _ _ rfl]
    by_cases hlen : 100 < c.length
    · simp [freshFile, LogFile.bisectF, seekRel, hlen,
        findCurrLine_fst_none dtf hdtf, not_lt.mpr hnn]
    · simp [freshFile, LogFile.bisectF, hlen]

/-- Witness for claim C8 at a concrete three-byte file with a parser that
never yields a timestamp. -/
theorem claim_C8_witness :
    (freshFile witC8c).fromStdin = false ∧
    (∀ l, dtNone l = none) ∧
    LogFile.bisectPhase (freshFile witC8c) dtNone witC8T = some (witC8st, none) ∧
    LogFile.fast_forward (freshFile witC8c) dtNone witC8T = some witC8st ∧
    (LogFile.bisectPhase (freshFile witC8c) dtNone witC8T).map Prod.snd = some none :=
  ⟨rfl, fun _ => rfl, by decide,
    claim_C8.1 (freshFile witC8c) dtNone witC8T witC8st rfl (by decide),
    claim_C8.2 witC8c dtNone witC8T (fun _ => rfl)⟩

/-- Counterexample for claim C1: a seekable file containing a line whose
timestamp is at or past the target, yet after `fast_forward` the stream is
at position 0 and the next line read is the first line, whose timestamp is
strictly before the target — the stream is not positioned at the first
line with timestamp at or past the target. -/
theorem claim_C1_cex :
    ((linesOf cexC1c).any fun l =>
      match cexC1dt l with
      | some d => DT.leb cexC1T d
      | none => false) = true ∧
    (LogFile.fast_forward (freshFile cexC1c) cexC1dt cexC1T).map LogFileSt.pos = some 0 ∧
    ((LogFile.fast_forward (freshFile cexC1c) cexC1dt cexC1T).map fun s =>
      cexC1dt (takeLine (s.content.drop s.pos)).1) = some (some ⟨2021, 1⟩) ∧
    DT.leb cexC1T ⟨2021, 1⟩ = false := by
  decide

/-- Claim C1 (amended): the positioning is only approximate.  Bisection
runs only while the step exceeds 100 bytes, so on any seekable file of at
most 100 bytes (with bounds not yet cached) `fast_forward` performs no
probe at all and returns with the stream at byte 0 — the start of the
file — irrespective of the target timestamp. -/
theorem claim_C1 (c : List Char) (dtf : Dtf) (T : DT) (h : c.length ≤ 100) :
    (LogFile.fast_forward (freshFile c) dtf T).map LogFileSt.pos = some 0 := by
  have hng : ¬100 < c.length := by omega
  rw [LogFile.fast_forward, LogFile.bisectPhase, filesize_fresh c dtf,
    calcBounds_eq _ _ rfl]
  simp [freshFile, LogFile.bisectF, hng]

/-- Witness for claim C1 at the concrete five-byte file. -/
theorem claim_C1_witness :
    cexC1c.length ≤ 100 ∧
    (LogFile.fast_forward (freshFile cexC1c) cexC1dt cexC1T).map LogFileSt.pos = some 0 :=
  ⟨by decide, claim_C1 cexC1c cexC1dt cexC1T (by decide)⟩
